import Mathlib

/-!
Verification development for the gorefactor symbol-indexing and
span-addressed mutation engine (`refactor` package).

The embedding models the repository's own logic faithfully:
strings are lists of characters (Go byte strings over ASCII input),
the Go parser (`go/parser`, an external collaborator per the design
document) is an oracle `Parser : Str → Option (List PDecl)` producing
position-annotated declaration records, and the file system is a map
from paths to optional contents.  The functions `matchName`,
`searchSymbols`, `locateSymbol`, `matchFunc`, `findFuncTarget`,
`ReplaceFunc`, `DeleteFunc`, `MoveFunc`, `ReadFunc`,
`ReplaceVarConst`, `DeleteType` and `formatSource` are direct
transcriptions of the corresponding Go functions in `find.go`,
`symbols.go`, `types.go` and the function/var-const mutator file.
-/

set_option maxRecDepth 10000

abbrev Str := List Char

/-- Go `strings.ToLower`, restricted to the ASCII fragment on which the
claims are stated (Lean's `Char.toLower` lowers exactly ASCII letters). -/
def toLowerStr (s : Str) : Str := s.map Char.toLower

/-- Go `strings.EqualFold` on the ASCII fragment: case-insensitive equality. -/
def equalFold (a b : Str) : Bool := toLowerStr a == toLowerStr b

/-- Go `strings.Contains hay needle`: substring test. -/
def containsSub : Str → Str → Bool
  | hay@(_ :: rest), needle => needle.isPrefixOf hay || containsSub rest needle
  | [], needle => needle.isEmpty

/-- `matchName` from `find.go`: exact equality, case-insensitive equality,
or case-folded substring, in that order. -/
def matchName (fullName query : Str) : Bool :=
  if fullName == query then true
  else if equalFold fullName query then true
  else if containsSub (toLowerStr fullName) (toLowerStr query) then true
  else false

/-- Kind tag "func". -/
def kFunc : Str := "func".toList

/-- Kind tag "type". -/
def kType : Str := "type".toList

/-- Kind tag "struct". -/
def kStruct : Str := "struct".toList

/-- Kind tag "interface". -/
def kInterface : Str := "interface".toList

/-- Kind tag "field". -/
def kField : Str := "field".toList

/-- Kind tag "var". -/
def kVar : Str := "var".toList

/-- Kind tag "const". -/
def kConst : Str := "const".toList

/-- Shape of a parsed type declaration: struct, interface, or other (alias). -/
inductive TShape where
  | structS
  | interfaceS
  | aliasS
deriving DecidableEq

/-- Token of a Go `GenDecl`: `var`, `const` or `type`. -/
inductive GTok where
  | tvar
  | tconst
  | ttype
deriving DecidableEq

/-- Parse-oracle record for one `ast.FuncDecl`: bare name, receiver as
rendered by `formatExpr` (with a leading star for pointer receivers),
the byte span `[startOff, endOff)` inside the file, and the printed
text of the declaration (Go `printer.Fprint`). -/
structure FuncInfo where
  name : Str
  recv : Option Str
  startOff : Nat
  endOff : Nat
  code : Str
deriving DecidableEq

/-- Parse-oracle record for one spec inside an `ast.GenDecl`: a type spec
with its name, shape and struct-field names, or a value spec with its
declared names. -/
inductive PSpec where
  | typeS (name : Str) (shape : TShape) (fields : List Str)
  | valueS (names : List Str)
deriving DecidableEq

/-- Parse-oracle record for one `ast.GenDecl` with its token, specs,
byte span and printed text. -/
structure GenInfo where
  tok : GTok
  specs : List PSpec
  startOff : Nat
  endOff : Nat
  code : Str
deriving DecidableEq

/-- A top-level declaration as produced by the parser oracle. -/
inductive PDecl where
  | funcD (f : FuncInfo)
  | genD (g : GenInfo)
deriving DecidableEq

/-- The fields of `SymbolLocation` (from `find.go`) that the claims
examine: qualified name, string kind tag, file, and parent type (set
only for fields). -/
structure SymbolLocation where
  name : Str
  kind : Str
  file : Str
  parent : Str
deriving DecidableEq

/-- Kind tag assigned to a type spec by `searchSymbols`: "interface" for
interface shapes, "struct" for struct shapes, "type" otherwise. -/
def shapeKind : TShape → Str
  | TShape.structS => kStruct
  | TShape.interfaceS => kInterface
  | TShape.aliasS => kType

/-- Qualified name `T.n`. -/
def qualify (t n : Str) : Str := t ++ '.' :: n

/-- Struct-field extraction step of `searchSymbols`: a field is reported
when the matcher accepts either `Type.Field` or the bare field name. -/
def extractField (path tname query : Str) (fname : Str) : List SymbolLocation :=
  if matchName (qualify tname fname) query || matchName fname query then
    [⟨qualify tname fname, kField, path, tname⟩]
  else []

/-- The `kind := "var"; if d.Tok == token.CONST { kind = "const" }`
assignment of the value-spec branch. -/
def tokKind (tok : GTok) : Str :=
  if tok = GTok.tconst then kConst else kVar

/-- Per-spec extraction step of `searchSymbols` (`find.go`): type specs
are considered under the empty, "type" and "field" filters; the type's
own record is suppressed under "field"; struct fields are scanned
whenever the spec is struct-shaped; value specs yield var/const
records under the empty or matching filter. -/
def extractSpec (path : Str) (tok : GTok) (query kindFilter : Str) : PSpec → List SymbolLocation
  | PSpec.typeS tname shape fields =>
    if kindFilter ≠ [] ∧ kindFilter ≠ kType ∧ kindFilter ≠ kField then []
    else
      (if kindFilter ≠ kField ∧ matchName tname query then
        [⟨tname, shapeKind shape, path, []⟩]
      else [])
      ++ (if shape = TShape.structS then fields.flatMap (extractField path tname query) else [])
  | PSpec.valueS names =>
    if kindFilter ≠ [] ∧ kindFilter ≠ tokKind tok then []
    else names.flatMap (fun nm =>
      if matchName nm query then [⟨nm, tokKind tok, path, []⟩] else [])

/-- Qualified function name used by `searchSymbols` and `ReadFunc`:
`Receiver.Method` for methods, the bare name otherwise. -/
def funcFullName (f : FuncInfo) : Str :=
  match f.recv with
  | some r => qualify r f.name
  | none => f.name

/-- Per-declaration extraction step of `searchSymbols`: function
declarations (methods included, still tagged "func") under the empty or
"func" filter, general declarations via `extractSpec`. -/
def extractDecl (path query kindFilter : Str) : PDecl → List SymbolLocation
  | PDecl.funcD f =>
    if kindFilter ≠ [] ∧ kindFilter ≠ kFunc then []
    else if matchName (funcFullName f) query || matchName f.name query then
      [⟨funcFullName f, kFunc, path, []⟩]
    else []
  | PDecl.genD g => g.specs.flatMap (extractSpec path g.tok query kindFilter)

/-- A directory tree: leaves carry the file name and the parser oracle's
verdict for the file (`none` models a parse failure, which contributes
no records without aborting the walk). -/
inductive FTree where
  | file (name : Str) (parsed : Option (List PDecl))
  | dir (name : Str) (children : List FTree)

/-- File-extension test `strings.HasSuffix(path, ".go")`. -/
def isGoFile (n : Str) : Bool := ".go".toList.isSuffixOf n

/-- Hidden-name test `strings.HasPrefix(base, ".")`. -/
def startsWithDot : Str → Bool
  | '.' :: _ => true
  | _ => false

/-- The dependency-vendor directory name. -/
def vendorName : Str := "vendor".toList

mutual

/-- The `filepath.Walk` callback of `searchSymbols`: a directory other
than the root whose base name starts with a dot or equals "vendor" is
pruned; only `.go` files that parse contribute entries. -/
def walkTree (isRoot : Bool) : FTree → List (Str × List PDecl)
  | FTree.file n parsed =>
    if isGoFile n then
      match parsed with
      | some ds => [(n, ds)]
      | none => []
    else []
  | FTree.dir n children =>
    if !isRoot && (startsWithDot n || n == vendorName) then []
    else walkForest children

/-- Walk of a list of sibling entries, in order. -/
def walkForest : List FTree → List (Str × List PDecl)
  | [] => []
  | t :: ts => walkTree false t ++ walkForest ts

end

/-- `searchSymbols` from `find.go`: walk the tree rooted at `t`, extract
matching declaration records from every parsed `.go` file, in traversal
order then in-file declaration order. -/
def searchSymbols (t : FTree) (query kindFilter : Str) : List SymbolLocation :=
  (walkTree true t).flatMap (fun e => e.2.flatMap (extractDecl e.1 query kindFilter))

/-- `locateSymbol` from `find.go`: run the indexer with no kind filter;
empty result is NotFound (`none`); the first record whose name equals
the query exactly wins; otherwise the first record wins. -/
def locateSymbol (t : FTree) (name : Str) : Option SymbolLocation :=
  let ms := searchSymbols t name []
  if ms.isEmpty then none
  else
    match ms.find? (fun m => m.name == name) with
    | some m => some m
    | none => ms.head?

/-- The file system: a map from paths to optional file contents
(`none` models an absent or unreadable file). -/
abbrev FS := Str → Option Str

/-- `os.WriteFile`. -/
def writeFS (fs : FS) (path content : Str) : FS :=
  fun p => if p = path then some content else fs p

/-- The parser oracle: Go `parser.ParseFile` on a file's bytes,
`none` modelling a parse error. -/
abbrev Parser := Str → Option (List PDecl)

/-- The three formatting alternatives available to `formatSource`:
`format.Source`, the external `goimports`, and the external `gofmt`;
`none` models failure of that alternative. -/
structure Fmt where
  fsrc : Str → Option Str
  gi : Str → Option Str
  gf : Str → Option Str

/-- `formatSource` from `symbols.go`: try `format.Source`, then
`goimports`, then `gofmt`; if all fail, return the original buffer
together with the error flag. -/
def formatSource (F : Fmt) (src : Str) : Str × Bool :=
  match F.fsrc src with
  | some out => (out, false)
  | none =>
    match F.gi src with
    | some out => (out, false)
    | none =>
      match F.gf src with
      | some out => (out, false)
      | none => (src, true)

/-- The caller pattern around `formatSource` shared by every mutator:
`formatted, err := formatSource(result); if err != nil { formatted = result }`. -/
def fmtApply (F : Fmt) (buf : Str) : Str :=
  let p := formatSource F buf
  if p.2 then buf else p.1

/-- `matchFunc` from the function mutator file: exact bare name, exact
`Receiver.Method`, or — when the receiver is rendered with a leading
star — the qualified form with the star dropped.  No case folding, no
substring matching. -/
def matchFunc (f : FuncInfo) (name : Str) : Bool :=
  if f.name == name then true
  else
    match f.recv with
    | some recv =>
      if qualify recv f.name == name then true
      else
        match recv with
        | c :: rest => c == '*' && qualify rest f.name == name
        | [] => false
    | none => false

/-- The declaration-selection loop of `ReadFunc` / `ReplaceFunc` /
`DeleteFunc`: the first function declaration accepted by `matchFunc`. -/
def findFuncTarget (name : Str) : List PDecl → Option FuncInfo
  | [] => none
  | PDecl.funcD f :: rest => if matchFunc f name then some f else findFuncTarget name rest
  | PDecl.genD _ :: rest => findFuncTarget name rest

/-- Does a value spec declare `name`? -/
def specHasValueName (name : Str) : PSpec → Bool
  | PSpec.valueS ns => ns.contains name
  | PSpec.typeS _ _ _ => false

/-- Does a var/const `GenDecl` declare `name`? -/
def vcHasName (g : GenInfo) (name : Str) : Bool :=
  match g.tok with
  | GTok.ttype => false
  | _ => g.specs.any (specHasValueName name)

/-- The declaration-selection loop of `ReplaceVarConst` / `DeleteVarConst`:
the loop keeps overwriting `targetDecl`, so the last matching group wins. -/
def findVarConstTarget (name : Str) (ds : List PDecl) : Option GenInfo :=
  ds.foldl (fun acc d =>
    match d with
    | PDecl.genD g => if vcHasName g name then some g else acc
    | PDecl.funcD _ => acc) none

/-- Does a type spec declare `name`? -/
def specHasTypeName (name : Str) : PSpec → Bool
  | PSpec.typeS n _ _ => n == name
  | PSpec.valueS _ => false

/-- Does a `type` GenDecl declare `name`? -/
def typeHasName (g : GenInfo) (name : Str) : Bool :=
  match g.tok with
  | GTok.ttype => g.specs.any (specHasTypeName name)
  | _ => false

/-- The declaration-selection loop of `ReplaceType` / `DeleteType`:
last matching `type` group wins. -/
def findTypeTarget (name : Str) (ds : List PDecl) : Option GenInfo :=
  ds.foldl (fun acc d =>
    match d with
    | PDecl.genD g => if typeHasName g name then some g else acc
    | PDecl.funcD _ => acc) none

/-- Line-break test of the delete loop: `src[endPos] == '\n' || src[endPos] == '\r'`. -/
def isNL (c : Char) : Bool := c == '\n' || c == '\r'

/-- The loop `for endPos < len(src) && isNL(src[endPos]) { endPos++ }`,
iterating over the suffix `src[endPos:]`. -/
def advanceEndAux : List Char → Nat → Nat
  | [], pos => pos
  | c :: rest, pos => if isNL c then advanceEndAux rest (pos + 1) else pos

/-- The adjusted end offset after consuming trailing line breaks. -/
def advanceEnd (src : Str) (pos : Nat) : Nat := advanceEndAux (src.drop pos) pos

/-- Success record of a mutating operation. -/
structure ModifyResult where
  success : Bool
  file : Str
deriving DecidableEq

/-- `ReplaceFunc(name, file, newCode)` with the target file supplied:
read the file, re-parse it fresh, find the first matching function
declaration, splice `newCode` over its byte span, format best-effort,
write back.  Any failure before the write leaves the file system
untouched and yields `none`. -/
def ReplaceFunc (parse : Parser) (F : Fmt) (name file newCode : Str) (fs : FS) :
    FS × Option ModifyResult :=
  match fs file with
  | none => (fs, none)
  | some src =>
    match parse src with
    | none => (fs, none)
    | some ds =>
      match findFuncTarget name ds with
      | none => (fs, none)
      | some f =>
        let buf := src.take f.startOff ++ newCode ++ src.drop f.endOff
        (writeFS fs file (fmtApply F buf), some ⟨true, file⟩)

/-- `DeleteFunc(name, file)` with the target file supplied: same span
computation as `ReplaceFunc`, then the end offset additionally consumes
immediately following line-break characters before the splice. -/
def DeleteFunc (parse : Parser) (F : Fmt) (name file : Str) (fs : FS) :
    FS × Option ModifyResult :=
  match fs file with
  | none => (fs, none)
  | some src =>
    match parse src with
    | none => (fs, none)
    | some ds =>
      match findFuncTarget name ds with
      | none => (fs, none)
      | some f =>
        let buf := src.take f.startOff ++ src.drop (advanceEnd src f.endOff)
        (writeFS fs file (fmtApply F buf), some ⟨true, file⟩)

/-- `ReplaceVarConst(name, file, newCode)` with the target file supplied:
the span is the whole enclosing var/const group. -/
def ReplaceVarConst (parse : Parser) (F : Fmt) (name file newCode : Str) (fs : FS) :
    FS × Option ModifyResult :=
  match fs file with
  | none => (fs, none)
  | some src =>
    match parse src with
    | none => (fs, none)
    | some ds =>
      match findVarConstTarget name ds with
      | none => (fs, none)
      | some g =>
        let buf := src.take g.startOff ++ newCode ++ src.drop g.endOff
        (writeFS fs file (fmtApply F buf), some ⟨true, file⟩)

/-- `DeleteType(name, file)` with the target file supplied (`types.go`):
span of the enclosing `type` group plus trailing line breaks. -/
def DeleteType (parse : Parser) (F : Fmt) (name file : Str) (fs : FS) :
    FS × Option ModifyResult :=
  match fs file with
  | none => (fs, none)
  | some src =>
    match parse src with
    | none => (fs, none)
    | some ds =>
      match findTypeTarget name ds with
      | none => (fs, none)
      | some g =>
        let buf := src.take g.startOff ++ src.drop (advanceEnd src g.endOff)
        (writeFS fs file (fmtApply F buf), some ⟨true, file⟩)

/-- Result of `ReadFunc`: qualified name, receiver, and the printed
declaration text (`printer.Fprint` output, taken from the oracle). -/
structure ReadFuncResult where
  name : Str
  receiver : Option Str
  code : Str
deriving DecidableEq

/-- `ReadFunc(name, file)` with the target file supplied: parse and
return the first function declaration accepted by `matchFunc`. -/
def ReadFunc (parse : Parser) (name file : Str) (fs : FS) : Option ReadFuncResult :=
  match fs file with
  | none => none
  | some src =>
    match parse src with
    | none => none
    | some ds =>
      match findFuncTarget name ds with
      | none => none
      | some f => some ⟨funcFullName f, f.recv, f.code⟩

/-- Best-effort `goimports -w file` as run by `MoveFunc` (`.Run()` with
the error ignored): rewrite the file when the tool succeeds, otherwise
leave the file system unchanged. -/
def applyGiw (giw : Str → Option Str) (file : Str) (fs : FS) : FS :=
  match fs file with
  | none => fs
  | some c =>
    match giw c with
    | none => fs
    | some c2 => writeFS fs file c2

/-- `MoveFunc(name, dstFile, srcFile)` with the source file supplied:
read the declaration text from the source, delete it there, then read
the destination and append two newlines, the text, and a newline; then
best-effort `goimports` on both files.  The delete is committed before
the destination is ever read. -/
def MoveFunc (parse : Parser) (F : Fmt) (giw : Str → Option Str)
    (name dstFile srcFile : Str) (fs : FS) : FS × Option ModifyResult :=
  match ReadFunc parse name srcFile fs with
  | none => (fs, none)
  | some r =>
    let d := DeleteFunc parse F name srcFile fs
    match d.2 with
    | none => (d.1, none)
    | some _ =>
      match d.1 dstFile with
      | none => (d.1, none)
      | some dstSrc =>
        let newDst := dstSrc ++ '\n' :: '\n' :: (r.code ++ ['\n'])
        let fs2 := writeFS d.1 dstFile newDst
        (applyGiw giw srcFile (applyGiw giw dstFile fs2), some ⟨true, dstFile⟩)

/-- A formatter chain in which every alternative fails. -/
def noFmt : Fmt := ⟨fun _ => none, fun _ => none, fun _ => none⟩

/-- An absent/failing `goimports` tool. -/
def noGiw : Str → Option Str := fun _ => none

/-! Concrete instances used by the scenario conjuncts, witnesses and
counterexamples.  All byte offsets were computed against the literal
file contents. -/

/-- A function record named `UserDelete` (spans irrelevant to search). -/
def fiUserDelete : FuncInfo := ⟨"UserDelete".toList, none, 0, 0, []⟩

/-- A function record named `Delete`. -/
def fiDelete : FuncInfo := ⟨"Delete".toList, none, 0, 0, []⟩

/-- A tree whose single file declares `UserDelete` before `Delete`, so the
fuzzy record for `UserDelete` precedes the exact one in traversal order. -/
def treeC1 : FTree :=
  FTree.dir ("root".toList)
    [FTree.file ("a.go".toList) (some [PDecl.funcD fiUserDelete, PDecl.funcD fiDelete])]

/-- A function record named `Helper`. -/
def fiHelper : FuncInfo := ⟨"Helper".toList, none, 0, 0, []⟩

/-- A root whose only child is a directory named `testdata` containing a
single matching declaration. -/
def treeTestdata : FTree :=
  FTree.dir ("root".toList)
    [FTree.dir ("testdata".toList)
      [FTree.file ("s.go".toList) (some [PDecl.funcD fiHelper])]]

/-- A `type User struct { Name ... }` declaration. -/
def structUserDecl : PDecl :=
  PDecl.genD ⟨GTok.ttype, [PSpec.typeS ("User".toList) TShape.structS [("Name".toList)]], 0, 0, []⟩

/-- A tree whose single file declares the struct `User`. -/
def treeUser : FTree :=
  FTree.dir ("root".toList) [FTree.file ("u.go".toList) (some [structUserDecl])]

/-- A method record `Delete` with pointer receiver `*UserService`. -/
def fiMethodDelete : FuncInfo := ⟨"Delete".toList, some ("*UserService".toList), 0, 0, []⟩

/-- A tree whose single file declares the method `(*UserService).Delete`. -/
def treeMethod : FTree :=
  FTree.dir ("root".toList) [FTree.file ("m.go".toList) (some [PDecl.funcD fiMethodDelete])]

/-- Bytes of a file declaring `const Version = "2.0.0"` (group span 11..34). -/
def srcVersion : Str := "package p\n\nconst Version = \"2.0.0\"\n".toList

/-- Parse record of the `Version` const group. -/
def giVersion : GenInfo := ⟨GTok.tconst, [PSpec.valueS [("Version".toList)]], 11, 34, []⟩

/-- Parser oracle for the `Version` scenario. -/
def parseVersion : Parser := fun s =>
  if s = srcVersion then some [PDecl.genD giVersion] else none

/-- Path of the `Version` scenario file. -/
def vfile : Str := "v.go".toList

/-- File system holding just the `Version` scenario file. -/
def fsVersion : FS := fun p => if p = vfile then some srcVersion else none

/-- Replacement text of the `Version` scenario. -/
def newVersionCode : Str := "const Version = \"3.0.0\"".toList

/-- Expected bytes of the `Version` scenario file after the replace. -/
def verAfter : Str := "package p\n\nconst Version = \"3.0.0\"\n".toList

/-- Bytes of a file declaring `helper` (span 11..27) followed by
`ProcessOrder` (span 29..51). -/
def srcHelper : Str := "package p\n\nfunc helper() {}\n\nfunc ProcessOrder() {}\n".toList

/-- Parse record of `helper` in `srcHelper`. -/
def fiHelperSpan : FuncInfo :=
  ⟨"helper".toList, none, 11, 27, "func helper() {}".toList⟩

/-- Parse record of `ProcessOrder` in `srcHelper`. -/
def fiProcessSpan : FuncInfo :=
  ⟨"ProcessOrder".toList, none, 29, 51, "func ProcessOrder() {}".toList⟩

/-- Parser oracle for the `helper` deletion scenario. -/
def parseHelper : Parser := fun s =>
  if s = srcHelper then some [PDecl.funcD fiHelperSpan, PDecl.funcD fiProcessSpan] else none

/-- Path of the `helper` scenario file. -/
def hfile : Str := "h.go".toList

/-- File system holding just the `helper` scenario file. -/
def fsHelper : FS := fun p => if p = hfile then some srcHelper else none

/-- Expected bytes after deleting `helper`: its span and the trailing
blank line are gone, the second declaration is byte-identical. -/
def helperAfter : Str := "package p\n\nfunc ProcessOrder() {}\n".toList

/-- Bytes of a file declaring only `ProcessOrder` (span 11..33). -/
def srcProc : Str := "package p\n\nfunc ProcessOrder() {}\n".toList

/-- Parse record of `ProcessOrder` in `srcProc`. -/
def fiProc : FuncInfo :=
  ⟨"ProcessOrder".toList, none, 11, 33, "func ProcessOrder() {}".toList⟩

/-- Parser oracle for the exact-match scenario. -/
def parseProc : Parser := fun s =>
  if s = srcProc then some [PDecl.funcD fiProc] else none

/-- Path of the exact-match scenario file. -/
def pfile : Str := "p.go".toList

/-- File system holding just the exact-match scenario file. -/
def fsProc : FS := fun p => if p = pfile then some srcProc else none

/-- Bytes of move-scenario file A, declaring `f` (span 11..22). -/
def srcA4 : Str := "package p\n\nfunc f() {}\n".toList

/-- Bytes of move-scenario file B before any move. -/
def srcB4 : Str := "package p\n".toList

/-- Printed text of the declaration `f`. -/
def codeF : Str := "func f() {}".toList

/-- Parse record of `f` in `srcA4`. -/
def fiF : FuncInfo := ⟨"f".toList, none, 11, 22, codeF⟩

/-- Bytes of file B after the first move appends `f`. -/
def srcB4x : Str := srcB4 ++ '\n' :: '\n' :: (codeF ++ ['\n'])

/-- Parse record of `f` in `srcB4x` (span 12..23). -/
def fiFB : FuncInfo := ⟨"f".toList, none, 12, 23, codeF⟩

/-- Parser oracle for the move scenarios. -/
def parse4 : Parser := fun s =>
  if s = srcA4 then some [PDecl.funcD fiF]
  else if s = srcB4x then some [PDecl.funcD fiFB]
  else none

/-- Path of move-scenario file A. -/
def afile : Str := "a.go".toList

/-- Path of move-scenario file B. -/
def bfile : Str := "b.go".toList

/-- File system holding both move-scenario files. -/
def fs4 : FS := fun p =>
  if p = afile then some srcA4
  else if p = bfile then some srcB4
  else none

/-- File system holding only file A; the destination B is absent
(unreadable), triggering the partial-move loss window. -/
def fs5 : FS := fun p => if p = afile then some srcA4 else none

/-! Helper lemmas. -/

/-- `containsSub` decides the substring relation. -/
theorem containsSub_iff (needle hay : Str) :
    containsSub hay needle = true ↔ needle <:+: hay := by
  induction hay with
  | nil =>
    simp [containsSub, List.isEmpty_iff, List.infix_nil]
  | cons a t ih =>
    simp only [containsSub, Bool.or_eq_true, ih, List.infix_cons_iff,
      List.isPrefixOf_iff_prefix]

/-- The trailing-newlines loop, characterized: dropping up to the adjusted
end offset is dropping the line-break prefix of the suffix. -/
theorem advanceEndAux_drop (src : Str) (l : List Char) :
    ∀ pos : Nat, l = src.drop pos →
      src.drop (advanceEndAux l pos) = l.dropWhile isNL := by
  induction l with
  | nil =>
    intro pos h
    simp [advanceEndAux, List.dropWhile, ← h]
  | cons c rest ih =>
    intro pos h
    by_cases hnl : isNL c
    · have hrest : rest = src.drop (pos + 1) := by
        have ht := List.tail_drop src pos
        rw [← h] at ht
        simpa using ht
      simp [advanceEndAux, hnl, List.dropWhile_cons, ih (pos + 1) hrest]
    · simp [advanceEndAux, hnl, List.dropWhile_cons, ← h]

/-- `advanceEnd` in terms of `dropWhile`. -/
theorem advanceEnd_drop (src : Str) (pos : Nat) :
    src.drop (advanceEnd src pos) = (src.drop pos).dropWhile isNL :=
  advanceEndAux_drop src (src.drop pos) pos rfl

/-- Reading back the freshly written file. -/
theorem writeFS_self (fs : FS) (p c : Str) : writeFS fs p c p = some c := by
  simp [writeFS]

/-- Reading any other file is unchanged by a write. -/
theorem writeFS_other (fs : FS) (p c q : Str) (h : q ≠ p) : writeFS fs p c q = fs q := by
  simp [writeFS, h]

/-- When every formatting alternative fails, the caller keeps the
structurally edited buffer. -/
theorem fmtApply_allFail (F : Fmt) (buf : Str)
    (h1 : F.fsrc buf = none) (h2 : F.gi buf = none) (h3 : F.gf buf = none) :
    fmtApply F buf = buf := by
  simp [fmtApply, formatSource, h1, h2, h3]

/-- The all-failing chain keeps any buffer. -/
theorem fmtApply_noFmt (buf : Str) : fmtApply noFmt buf = buf := rfl

/-- A failing `goimports` leaves the file system unchanged. -/
theorem applyGiw_noGiw (file : Str) (fs : FS) : applyGiw noGiw file fs = fs := by
  unfold applyGiw noGiw
  cases fs file <;> rfl

/-- Success path of `ReplaceFunc`, fully characterized. -/
theorem ReplaceFunc_spec (parse : Parser) (F : Fmt) (name file newCode : Str) (fs : FS)
    (src : Str) (ds : List PDecl) (f : FuncInfo)
    (hread : fs file = some src) (hparse : parse src = some ds)
    (hfind : findFuncTarget name ds = some f) :
    ReplaceFunc parse F name file newCode fs =
      (writeFS fs file (fmtApply F (src.take f.startOff ++ newCode ++ src.drop f.endOff)),
       some ⟨true, file⟩) := by
  simp [ReplaceFunc, hread, hparse, hfind]

/-- Success path of `DeleteFunc`: the written buffer is the prefix before
the span followed by the suffix after the span with its leading line
breaks consumed. -/
theorem DeleteFunc_spec (parse : Parser) (F : Fmt) (name file : Str) (fs : FS)
    (src : Str) (ds : List PDecl) (f : FuncInfo)
    (hread : fs file = some src) (hparse : parse src = some ds)
    (hfind : findFuncTarget name ds = some f) :
    DeleteFunc parse F name file fs =
      (writeFS fs file
        (fmtApply F (src.take f.startOff ++ (src.drop f.endOff).dropWhile isNL)),
       some ⟨true, file⟩) := by
  simp [DeleteFunc, hread, hparse, hfind, advanceEnd_drop]

/-- Success path of `ReplaceVarConst`. -/
theorem ReplaceVarConst_spec (parse : Parser) (F : Fmt) (name file newCode : Str) (fs : FS)
    (src : Str) (ds : List PDecl) (g : GenInfo)
    (hread : fs file = some src) (hparse : parse src = some ds)
    (hfind : findVarConstTarget name ds = some g) :
    ReplaceVarConst parse F name file newCode fs =
      (writeFS fs file (fmtApply F (src.take g.startOff ++ newCode ++ src.drop g.endOff)),
       some ⟨true, file⟩) := by
  simp [ReplaceVarConst, hread, hparse, hfind]

/-- Success path of `DeleteType`. -/
theorem DeleteType_spec (parse : Parser) (F : Fmt) (name file : Str) (fs : FS)
    (src : Str) (ds : List PDecl) (g : GenInfo)
    (hread : fs file = some src) (hparse : parse src = some ds)
    (hfind : findTypeTarget name ds = some g) :
    DeleteType parse F name file fs =
      (writeFS fs file
        (fmtApply F (src.take g.startOff ++ (src.drop g.endOff).dropWhile isNL)),
       some ⟨true, file⟩) := by
  simp [DeleteType, hread, hparse, hfind, advanceEnd_drop]

/-- Success path of `ReadFunc`. -/
theorem ReadFunc_spec (parse : Parser) (name file : Str) (fs : FS)
    (src : Str) (ds : List PDecl) (f : FuncInfo)
    (hread : fs file = some src) (hparse : parse src = some ds)
    (hfind : findFuncTarget name ds = some f) :
    ReadFunc parse name file fs = some ⟨funcFullName f, f.recv, f.code⟩ := by
  simp [ReadFunc, hread, hparse, hfind]

/-- Success path of `MoveFunc` (formatters and `goimports` failing, so
every written byte is the structural edit): the source file holds the
delete splice, and the destination holds its old content followed by a
blank line and the declaration text read from the source. -/
theorem MoveFunc_spec (parse : Parser) (name dstFile srcFile : Str) (fs : FS)
    (src : Str) (ds : List PDecl) (f : FuncInfo) (dstSrc : Str)
    (hne : dstFile ≠ srcFile)
    (hread : fs srcFile = some src) (hparse : parse src = some ds)
    (hfind : findFuncTarget name ds = some f)
    (hdst : fs dstFile = some dstSrc) :
    MoveFunc parse noFmt noGiw name dstFile srcFile fs =
      (writeFS
        (writeFS fs srcFile (src.take f.startOff ++ (src.drop f.endOff).dropWhile isNL))
        dstFile (dstSrc ++ '\n' :: '\n' :: (f.code ++ ['\n'])),
       some ⟨true, dstFile⟩) := by
  have hr := ReadFunc_spec parse name srcFile fs src ds f hread hparse hfind
  have hd := DeleteFunc_spec parse noFmt name srcFile fs src ds f hread hparse hfind
  rw [MoveFunc, hr, hd]
  simp only [fmtApply_noFmt, applyGiw_noGiw]
  rw [writeFS_other fs srcFile _ dstFile hne, hdst]

/-- Records produced by the struct-field scan carry kind "field". -/
theorem kind_of_mem_extractField {r : SymbolLocation} {path tname query fname : Str}
    (h : r ∈ extractField path tname query fname) : r.kind = kField := by
  unfold extractField at h
  split at h
  · simp at h
    subst h
    rfl
  · simp at h

/-- Records produced by the value-spec scan carry the group's kind. -/
theorem kind_of_mem_valueRecords {r : SymbolLocation} {path query kd : Str} {names : List Str}
    (h : r ∈ names.flatMap (fun nm =>
      if matchName nm query then [(⟨nm, kd, path, []⟩ : SymbolLocation)] else [])) :
    r.kind = kd := by
  rcases List.mem_flatMap.mp h with ⟨nm, _, hr⟩
  split at hr
  · simp at hr
    subst hr
    rfl
  · simp at hr

/-- Under the "func" filter, spec extraction contributes nothing. -/
theorem extractSpec_kFunc (path query : Str) (tok : GTok) (s : PSpec) :
    extractSpec path tok query kFunc s = [] := by
  cases s with
  | typeS tname shape fields =>
    simp only [extractSpec]
    rw [if_pos (by decide)]
  | valueS names =>
    simp only [extractSpec]
    cases tok <;> rw [if_pos (by decide)]

/-- Under the "func" filter, every extracted record has kind "func". -/
theorem kind_of_mem_extractDecl_kFunc {r : SymbolLocation} {path query : Str} {d : PDecl}
    (h : r ∈ extractDecl path query kFunc d) : r.kind = kFunc := by
  cases d with
  | funcD f =>
    simp only [extractDecl] at h
    rw [if_neg (by decide)] at h
    split at h
    · simp at h
      subst h
      rfl
    · simp at h
  | genD g =>
    rcases List.mem_flatMap.mp h with ⟨s, _, hs⟩
    rw [extractSpec_kFunc] at hs
    simp at hs

/-- Under the "var" filter, every extracted record has kind "var". -/
theorem kind_of_mem_extractDecl_kVar {r : SymbolLocation} {path query : Str} {d : PDecl}
    (h : r ∈ extractDecl path query kVar d) : r.kind = kVar := by
  cases d with
  | funcD f =>
    simp only [extractDecl] at h
    rw [if_pos (by decide)] at h
    simp at h
  | genD g =>
    rcases List.mem_flatMap.mp h with ⟨s, _, hs⟩
    cases s with
    | typeS tname shape fields =>
      simp only [extractSpec] at hs
      rw [if_pos (by decide)] at hs
      simp at hs
    | valueS names =>
      simp only [extractSpec] at hs
      cases tok : g.tok with
      | tconst =>
        rw [tok, show tokKind GTok.tconst = kConst from by decide,
          if_pos (by decide)] at hs
        simp at hs
      | tvar =>
        rw [tok, show tokKind GTok.tvar = kVar from by decide, if_neg (by decide)] at hs
        exact kind_of_mem_valueRecords hs
      | ttype =>
        rw [tok, show tokKind GTok.ttype = kVar from by decide, if_neg (by decide)] at hs
        exact kind_of_mem_valueRecords hs

/-- Under the "const" filter, every extracted record has kind "const". -/
theorem kind_of_mem_extractDecl_kConst {r : SymbolLocation} {path query : Str} {d : PDecl}
    (h : r ∈ extractDecl path query kConst d) : r.kind = kConst := by
  cases d with
  | funcD f =>
    simp only [extractDecl] at h
    rw [if_pos (by decide)] at h
    simp at h
  | genD g =>
    rcases List.mem_flatMap.mp h with ⟨s, _, hs⟩
    cases s with
    | typeS tname shape fields =>
      simp only [extractSpec] at hs
      rw [if_pos (by decide)] at hs
      simp at hs
    | valueS names =>
      simp only [extractSpec] at hs
      cases tok : g.tok with
      | tconst =>
        rw [tok, show tokKind GTok.tconst = kConst from by decide,
          if_neg (by decide)] at hs
        exact kind_of_mem_valueRecords hs
      | tvar =>
        rw [tok, show tokKind GTok.tvar = kVar from by decide, if_pos (by decide)] at hs
        simp at hs
      | ttype =>
        rw [tok, show tokKind GTok.ttype = kVar from by decide, if_pos (by decide)] at hs
        simp at hs

/-- Under the "field" filter, every extracted record has kind "field"
(in particular the enclosing type's own record is suppressed). -/
theorem kind_of_mem_extractDecl_kField {r : SymbolLocation} {path query : Str} {d : PDecl}
    (h : r ∈ extractDecl path query kField d) : r.kind = kField := by
  cases d with
  | funcD f =>
    simp only [extractDecl] at h
    rw [if_pos (by decide)] at h
    simp at h
  | genD g =>
    rcases List.mem_flatMap.mp h with ⟨s, _, hs⟩
    cases s with
    | typeS tname shape fields =>
      simp only [extractSpec] at hs
      rw [if_neg (by decide), if_neg (fun hc => hc.1 rfl)] at hs
      simp only [List.nil_append] at hs
      split at hs
      · rcases List.mem_flatMap.mp hs with ⟨fn, _, hf⟩
        exact kind_of_mem_extractField hf
      · simp at hs
    | valueS names =>
      simp only [extractSpec] at hs
      cases tok : g.tok with
      | tconst =>
        rw [tok, show tokKind GTok.tconst = kConst from by decide,
          if_pos (by decide)] at hs
        simp at hs
      | tvar =>
        rw [tok, show tokKind GTok.tvar = kVar from by decide, if_pos (by decide)] at hs
        simp at hs
      | ttype =>
        rw [tok, show tokKind GTok.ttype = kVar from by decide, if_pos (by decide)] at hs
        simp at hs

/-- Under the "type" filter, every extracted record has kind "type",
"struct", "interface" — or "field", since the struct-field scan is not
suppressed by the "type" filter. -/
theorem kind_of_mem_extractDecl_kType {r : SymbolLocation} {path query : Str} {d : PDecl}
    (h : r ∈ extractDecl path query kType d) :
    r.kind = kType ∨ r.kind = kStruct ∨ r.kind = kInterface ∨ r.kind = kField := by
  cases d with
  | funcD f =>
    simp only [extractDecl] at h
    rw [if_pos (by decide)] at h
    simp at h
  | genD g =>
    rcases List.mem_flatMap.mp h with ⟨s, _, hs⟩
    cases s with
    | typeS tname shape fields =>
      simp only [extractSpec] at hs
      rw [if_neg (by decide)] at hs
      rcases List.mem_append.mp hs with hl | hr
      · split at hl
        · simp at hl
          subst hl
          cases shape
          · exact Or.inr (Or.inl rfl)
          · exact Or.inr (Or.inr (Or.inl rfl))
          · exact Or.inl rfl
        · simp at hl
      · split at hr
        · rcases List.mem_flatMap.mp hr with ⟨fn, _, hf⟩
          exact Or.inr (Or.inr (Or.inr (kind_of_mem_extractField hf)))
        · simp at hr
    | valueS names =>
      simp only [extractSpec] at hs
      cases tok : g.tok with
      | tconst =>
        rw [tok, show tokKind GTok.tconst = kConst from by decide,
          if_pos (by decide)] at hs
        simp at hs
      | tvar =>
        rw [tok, show tokKind GTok.tvar = kVar from by decide, if_pos (by decide)] at hs
        simp at hs
      | ttype =>
        rw [tok, show tokKind GTok.ttype = kVar from by decide, if_pos (by decide)] at hs
        simp at hs

/-- Walking sibling lists distributes over list append. -/
theorem walkForest_append (xs ys : List FTree) :
    walkForest (xs ++ ys) = walkForest xs ++ walkForest ys := by
  induction xs with
  | nil => rfl
  | cons t ts ih => simp [walkForest, ih]

/-- A non-root directory whose base name is hidden or "vendor" is pruned
entirely: it contributes no walk entries wherever it appears. -/
theorem walkTree_pruned (n : Str) (sub : List FTree)
    (h : (startsWithDot n || n == vendorName) = true) :
    walkTree false (FTree.dir n sub) = [] := by
  simp [walkTree, h]

/-- The scan root is walked into regardless of its own name. -/
theorem walkTree_root (n : Str) (children : List FTree) :
    walkTree true (FTree.dir n children) = walkForest children := by
  simp [walkTree]

/-- `matchName` as a single boolean disjunction. -/
theorem matchName_eq (c q : Str) :
    matchName c q =
      (c == q || equalFold c q || containsSub (toLowerStr c) (toLowerStr q)) := by
  rw [matchName]
  split_ifs <;> simp_all

/-- Claim C1: the resolver (`locateSymbol`) runs the indexer with no kind
filter and applies the fixed policy: if some record's name equals the
query exactly, the first such record (in traversal order) is returned;
otherwise the first record is returned regardless of match strength; if
the index produced no records the resolver signals NotFound (`none`).
Concretely, with candidates `UserDelete` (earlier in traversal order)
and `Delete` under query "Delete", the record named exactly `Delete` is
returned. -/
theorem locateSymbol_policy :
    (∀ (t : FTree) (name : Str),
      (searchSymbols t name [] = [] → locateSymbol t name = none) ∧
      (∀ m, (searchSymbols t name []).find? (fun r => r.name == name) = some m →
        locateSymbol t name = some m) ∧
      ((searchSymbols t name []).find? (fun r => r.name == name) = none →
        locateSymbol t name = (searchSymbols t name []).head?)) ∧
    searchSymbols treeC1 ("Delete".toList) [] =
      [⟨"UserDelete".toList, kFunc, "a.go".toList, []⟩,
       ⟨"Delete".toList, kFunc, "a.go".toList, []⟩] ∧
    locateSymbol treeC1 ("Delete".toList) =
      some ⟨"Delete".toList, kFunc, "a.go".toList, []⟩ := by
  refine ⟨fun t name => ⟨?_, ?_, ?_⟩, by decide, by decide⟩
  · intro h
    simp [locateSymbol, h]
  · intro m hm
    have hne : searchSymbols t name [] ≠ [] := by
      intro he
      rw [he] at hm
      simp at hm
    simp only [locateSymbol]
    rw [if_neg (by simpa [List.isEmpty_iff] using hne), hm]
  · intro hnone
    by_cases he : searchSymbols t name [] = []
    · simp [locateSymbol, he]
    · simp only [locateSymbol]
      rw [if_neg (by simpa [List.isEmpty_iff] using he), hnone]

/-- Witness for C1: the policy applied to the concrete tree in which the
fuzzy match precedes the exact one. -/
theorem locateSymbol_policy_witness :
    locateSymbol treeC1 ("Delete".toList) =
      some ⟨"Delete".toList, kFunc, "a.go".toList, []⟩ :=
  (locateSymbol_policy.1 treeC1 ("Delete".toList)).2.1
    ⟨"Delete".toList, kFunc, "a.go".toList, []⟩ (by decide)

/-- Claim C8: `matchName` accepts iff the candidate equals the query
exactly, equals it case-insensitively, or the case-folded query is a
substring of the case-folded candidate; in particular the two quoted
instances hold. -/
theorem matchName_spec :
    (∀ c q : Str, matchName c q = true ↔
      (c = q ∨ toLowerStr c = toLowerStr q ∨ toLowerStr q <:+: toLowerStr c)) ∧
    matchName ("ProcessOrder".toList) ("processorder".toList) = true ∧
    matchName ("UserService.Create".toList) ("Create".toList) = true := by
  refine ⟨fun c q => ?_, by decide, by decide⟩
  rw [matchName_eq]
  simp [Bool.or_eq_true, beq_iff_eq, equalFold, containsSub_iff, or_assoc]

/-- Witness for C8: a case-insensitive acceptance derived through the
characterization. -/
theorem matchName_spec_witness :
    matchName ("Rename".toList) ("rename".toList) = true :=
  (matchName_spec.1 ("Rename".toList) ("rename".toList)).mpr
    (Or.inr (Or.inl (by decide)))

/-- Claim C2: when the file reads and parses and a declaration matches
`name`, `replace` hands the formatter exactly the original bytes before
the span's start, then the new text, then the original bytes from the
span's end onward, and writes the (best-effort formatted) result back,
touching no other file; this holds for the function mutator and for the
var/const mutator, and on the concrete `Version` file the result
contains "3.0.0" and no longer contains "2.0.0". -/
theorem replace_splices_span :
    (∀ (parse : Parser) (F : Fmt) (name file newCode : Str) (fs : FS)
      (src : Str) (ds : List PDecl) (f : FuncInfo),
      fs file = some src → parse src = some ds → findFuncTarget name ds = some f →
        (ReplaceFunc parse F name file newCode fs).2 = some ⟨true, file⟩ ∧
        (ReplaceFunc parse F name file newCode fs).1 file =
          some (fmtApply F (src.take f.startOff ++ newCode ++ src.drop f.endOff)) ∧
        ∀ q, q ≠ file → (ReplaceFunc parse F name file newCode fs).1 q = fs q) ∧
    (∀ (parse : Parser) (F : Fmt) (name file newCode : Str) (fs : FS)
      (src : Str) (ds : List PDecl) (g : GenInfo),
      fs file = some src → parse src = some ds → findVarConstTarget name ds = some g →
        (ReplaceVarConst parse F name file newCode fs).2 = some ⟨true, file⟩ ∧
        (ReplaceVarConst parse F name file newCode fs).1 file =
          some (fmtApply F (src.take g.startOff ++ newCode ++ src.drop g.endOff)) ∧
        ∀ q, q ≠ file → (ReplaceVarConst parse F name file newCode fs).1 q = fs q) ∧
    (ReplaceVarConst parseVersion noFmt ("Version".toList) vfile newVersionCode fsVersion).1 vfile
      = some verAfter ∧
    containsSub verAfter ("3.0.0".toList) = true ∧
    containsSub verAfter ("2.0.0".toList) = false := by
  refine ⟨?_, ?_, by decide, by decide, by decide⟩
  · intro parse F name file newCode fs src ds f h1 h2 h3
    rw [ReplaceFunc_spec parse F name file newCode fs src ds f h1 h2 h3]
    exact ⟨rfl, writeFS_self fs file _, fun q hq => writeFS_other fs file _ q hq⟩
  · intro parse F name file newCode fs src ds g h1 h2 h3
    rw [ReplaceVarConst_spec parse F name file newCode fs src ds g h1 h2 h3]
    exact ⟨rfl, writeFS_self fs file _, fun q hq => writeFS_other fs file _ q hq⟩

/-- Witness for C2: the function-replace pipeline on a concrete file. -/
theorem replace_splices_span_witness :
    (ReplaceFunc parseProc noFmt ("ProcessOrder".toList) pfile codeF fsProc).2
      = some ⟨true, pfile⟩ ∧
    (ReplaceFunc parseProc noFmt ("ProcessOrder".toList) pfile codeF fsProc).1 pfile =
      some (fmtApply noFmt
        (srcProc.take fiProc.startOff ++ codeF ++ srcProc.drop fiProc.endOff)) :=
  have h := replace_splices_span.1 parseProc noFmt ("ProcessOrder".toList) pfile codeF
    fsProc srcProc [PDecl.funcD fiProc] fiProc (by decide) (by decide) (by decide)
  ⟨h.1, h.2.1⟩

/-- Claim C3: `delete` removes exactly the declaration's byte span plus
any line-break characters immediately following it, and leaves every
byte outside that extended span unchanged before the formatting pass:
the buffer handed to the formatter is the original prefix before the
span followed by the suffix after the span with its leading line breaks
consumed, and no other file changes; this holds for the function
deleter and for the type deleter, and on the concrete file deleting
`helper` leaves the following declaration byte-identical with the gap
closed. -/
theorem delete_splices_span :
    (∀ (parse : Parser) (F : Fmt) (name file : Str) (fs : FS)
      (src : Str) (ds : List PDecl) (f : FuncInfo),
      fs file = some src → parse src = some ds → findFuncTarget name ds = some f →
        (DeleteFunc parse F name file fs).2 = some ⟨true, file⟩ ∧
        (DeleteFunc parse F name file fs).1 file =
          some (fmtApply F (src.take f.startOff ++ (src.drop f.endOff).dropWhile isNL)) ∧
        ∀ q, q ≠ file → (DeleteFunc parse F name file fs).1 q = fs q) ∧
    (∀ (parse : Parser) (F : Fmt) (name file : Str) (fs : FS)
      (src : Str) (ds : List PDecl) (g : GenInfo),
      fs file = some src → parse src = some ds → findTypeTarget name ds = some g →
        (DeleteType parse F name file fs).2 = some ⟨true, file⟩ ∧
        (DeleteType parse F name file fs).1 file =
          some (fmtApply F (src.take g.startOff ++ (src.drop g.endOff).dropWhile isNL)) ∧
        ∀ q, q ≠ file → (DeleteType parse F name file fs).1 q = fs q) ∧
    (DeleteFunc parseHelper noFmt ("helper".toList) hfile fsHelper).1 hfile
      = some helperAfter ∧
    helperAfter = srcHelper.take 11 ++ (srcHelper.drop 27).dropWhile isNL ∧
    containsSub helperAfter ("func ProcessOrder() {}".toList) = true := by
  refine ⟨?_, ?_, by decide, by decide, by decide⟩
  · intro parse F name file fs src ds f h1 h2 h3
    rw [DeleteFunc_spec parse F name file fs src ds f h1 h2 h3]
    exact ⟨rfl, writeFS_self fs file _, fun q hq => writeFS_other fs file _ q hq⟩
  · intro parse F name file fs src ds g h1 h2 h3
    rw [DeleteType_spec parse F name file fs src ds g h1 h2 h3]
    exact ⟨rfl, writeFS_self fs file _, fun q hq => writeFS_other fs file _ q hq⟩

/-- Witness for C3: deleting `helper` from the concrete two-function file. -/
theorem delete_splices_span_witness :
    (DeleteFunc parseHelper noFmt ("helper".toList) hfile fsHelper).2
      = some ⟨true, hfile⟩ ∧
    (DeleteFunc parseHelper noFmt ("helper".toList) hfile fsHelper).1 hfile =
      some (fmtApply noFmt
        (srcHelper.take fiHelperSpan.startOff
          ++ (srcHelper.drop fiHelperSpan.endOff).dropWhile isNL)) :=
  have h := delete_splices_span.1 parseHelper noFmt ("helper".toList) hfile fsHelper
    srcHelper [PDecl.funcD fiHelperSpan, PDecl.funcD fiProcessSpan] fiHelperSpan
    (by decide) (by decide) (by decide)
  ⟨h.1, h.2.1⟩

/-- Claim C9: the formatter adapter tries the strict canonical
reformatter (`format.Source`) first, then `goimports`, then `gofmt`, in
that fixed order; when every alternative fails it returns the original,
structurally already-edited buffer with the error flag instead of
failing; consequently for the mutating operations, total formatting
failure never prevents the edited bytes from being written back. -/
theorem formatter_fallback_chain :
    (∀ (F : Fmt) (src out : Str),
      (F.fsrc src = some out → formatSource F src = (out, false)) ∧
      (F.fsrc src = none → F.gi src = some out → formatSource F src = (out, false)) ∧
      (F.fsrc src = none → F.gi src = none → F.gf src = some out →
        formatSource F src = (out, false))) ∧
    (∀ (F : Fmt) (src : Str),
      F.fsrc src = none → F.gi src = none → F.gf src = none →
        formatSource F src = (src, true)) ∧
    (∀ (F : Fmt), (∀ x, F.fsrc x = none) → (∀ x, F.gi x = none) → (∀ x, F.gf x = none) →
      (∀ (parse : Parser) (name file newCode : Str) (fs : FS) (src : Str)
        (ds : List PDecl) (f : FuncInfo),
        fs file = some src → parse src = some ds → findFuncTarget name ds = some f →
          (ReplaceFunc parse F name file newCode fs).2 = some ⟨true, file⟩ ∧
          (ReplaceFunc parse F name file newCode fs).1 file =
            some (src.take f.startOff ++ newCode ++ src.drop f.endOff)) ∧
      (∀ (parse : Parser) (name file : Str) (fs : FS) (src : Str)
        (ds : List PDecl) (f : FuncInfo),
        fs file = some src → parse src = some ds → findFuncTarget name ds = some f →
          (DeleteFunc parse F name file fs).2 = some ⟨true, file⟩ ∧
          (DeleteFunc parse F name file fs).1 file =
            some (src.take f.startOff ++ (src.drop f.endOff).dropWhile isNL))) := by
  refine ⟨fun F src out => ⟨?_, ?_, ?_⟩, fun F src h1 h2 h3 => ?_, fun F hf hg hgf => ⟨?_, ?_⟩⟩
  · intro h
    simp [formatSource, h]
  · intro h1 h2
    simp [formatSource, h1, h2]
  · intro h1 h2 h3
    simp [formatSource, h1, h2, h3]
  · simp [formatSource, h1, h2, h3]
  · intro parse name file newCode fs src ds f h1 h2 h3
    rw [ReplaceFunc_spec parse F name file newCode fs src ds f h1 h2 h3]
    refine ⟨rfl, ?_⟩
    rw [fmtApply_allFail F _ (hf _) (hg _) (hgf _)]
    exact writeFS_self fs file _
  · intro parse name file fs src ds f h1 h2 h3
    rw [DeleteFunc_spec parse F name file fs src ds f h1 h2 h3]
    refine ⟨rfl, ?_⟩
    rw [fmtApply_allFail F _ (hf _) (hg _) (hgf _)]
    exact writeFS_self fs file _

/-- Witness for C9: the chain with every alternative failing returns the
buffer unchanged, flagged. -/
theorem formatter_fallback_chain_witness :
    formatSource noFmt srcA4 = (srcA4, true) :=
  formatter_fallback_chain.2.1 noFmt srcA4 rfl rfl rfl

/-- Claim C4: moving a declaration from A to B and back restores a
declaration named `name` in A whose content equals the original
exactly, once formatting is factored out (formatters and `goimports`
modelled as failing, which the adapter tolerates).  The coherence
hypotheses on the parser oracle state that re-parsing B after the
append finds the moved declaration with the same printed text — the
parser/printer round-trip guaranteed by the external Go toolchain. -/
theorem move_roundtrip (parse : Parser) (fs : FS) (name A B : Str)
    (a0 b0 : Str) (dsA dsB : List PDecl) (fA fB : FuncInfo)
    (hBA : B ≠ A) (hA : fs A = some a0) (hB : fs B = some b0)
    (hpA : parse a0 = some dsA) (hfA : findFuncTarget name dsA = some fA)
    (hpB : parse (b0 ++ '\n' :: '\n' :: (fA.code ++ ['\n'])) = some dsB)
    (hfB : findFuncTarget name dsB = some fB)
    (hcode : fB.code = fA.code) :
    ∃ fs1 fs2 : FS,
      MoveFunc parse noFmt noGiw name B A fs = (fs1, some ⟨true, B⟩) ∧
      fs1 A = some (a0.take fA.startOff ++ (a0.drop fA.endOff).dropWhile isNL) ∧
      fs1 B = some (b0 ++ '\n' :: '\n' :: (fA.code ++ ['\n'])) ∧
      MoveFunc parse noFmt noGiw name A B fs1 = (fs2, some ⟨true, A⟩) ∧
      fs2 A = some ((a0.take fA.startOff ++ (a0.drop fA.endOff).dropWhile isNL)
        ++ '\n' :: '\n' :: (fA.code ++ ['\n'])) ∧
      containsSub ((a0.take fA.startOff ++ (a0.drop fA.endOff).dropWhile isNL)
        ++ '\n' :: '\n' :: (fA.code ++ ['\n'])) fA.code = true := by
  have hm1 := MoveFunc_spec parse name B A fs a0 dsA fA b0 hBA hA hpA hfA hB
  set a1 : Str := a0.take fA.startOff ++ (a0.drop fA.endOff).dropWhile isNL with ha1
  set b1 : Str := b0 ++ '\n' :: '\n' :: (fA.code ++ ['\n']) with hb1
  have hfs1A : writeFS (writeFS fs A a1) B b1 A = some a1 := by
    rw [writeFS_other _ B b1 A hBA.symm]
    exact writeFS_self fs A a1
  have hfs1B : writeFS (writeFS fs A a1) B b1 B = some b1 :=
    writeFS_self (writeFS fs A a1) B b1
  have hm2 := MoveFunc_spec parse name A B (writeFS (writeFS fs A a1) B b1)
    b1 dsB fB a1 (fun h => hBA h.symm) hfs1B hpB hfB hfs1A
  refine ⟨writeFS (writeFS fs A a1) B b1, _, hm1, hfs1A, hfs1B, hm2, ?_, ?_⟩
  · rw [hcode]
    exact writeFS_self _ A _
  · rw [containsSub_iff]
    exact ⟨a1 ++ ['\n', '\n'], ['\n'], by simp⟩

/-- Witness for C4: the round trip on the concrete two-file system. -/
theorem move_roundtrip_witness :
    ∃ fs1 fs2 : FS,
      MoveFunc parse4 noFmt noGiw ("f".toList) bfile afile fs4 = (fs1, some ⟨true, bfile⟩) ∧
      fs1 afile = some (srcA4.take fiF.startOff ++ (srcA4.drop fiF.endOff).dropWhile isNL) ∧
      fs1 bfile = some (srcB4 ++ '\n' :: '\n' :: (fiF.code ++ ['\n'])) ∧
      MoveFunc parse4 noFmt noGiw ("f".toList) afile bfile fs1 = (fs2, some ⟨true, afile⟩) ∧
      fs2 afile = some ((srcA4.take fiF.startOff ++ (srcA4.drop fiF.endOff).dropWhile isNL)
        ++ '\n' :: '\n' :: (fiF.code ++ ['\n'])) ∧
      containsSub ((srcA4.take fiF.startOff ++ (srcA4.drop fiF.endOff).dropWhile isNL)
        ++ '\n' :: '\n' :: (fiF.code ++ ['\n'])) fiF.code = true :=
  move_roundtrip parse4 fs4 ("f".toList) afile bfile srcA4 srcB4
    [PDecl.funcD fiF] [PDecl.funcD fiFB] fiF fiFB
    (by decide) (by decide) (by decide) (by decide) (by decide)
    (by decide) (by decide) (by decide)

/-- Claim C5: the move is not atomic.  In the exhibited execution the
destination file is unreadable: the read and the delete on the source
succeed, the subsequent read of the destination fails, `MoveFunc`
returns an error, and the declaration is present in neither file — the
source no longer contains its text and the destination does not exist. -/
theorem move_not_atomic :
    containsSub srcA4 codeF = true ∧
    (MoveFunc parse4 noFmt noGiw ("f".toList) bfile afile fs5).2 = none ∧
    (MoveFunc parse4 noFmt noGiw ("f".toList) bfile afile fs5).1 afile
      = some ("package p\n\n".toList) ∧
    containsSub ("package p\n\n".toList) codeF = false ∧
    (MoveFunc parse4 noFmt noGiw ("f".toList) bfile afile fs5).1 bfile = none := by
  decide

/-- Counterexample to C6 as stated: the indexer (`searchSymbols`) does
not prune a directory named `testdata`; a `testdata` directory directly
under the scan root contributes records to the search (only the
package-name lookup `findPackageByName` excludes `testdata`). -/
theorem searchSymbols_testdata_not_pruned :
    searchSymbols treeTestdata ("Helper".toList) [] =
      [⟨"Helper".toList, kFunc, "s.go".toList, []⟩] := by
  decide

/-- Claim C6 (amended): during symbol indexing, every directory other
than the scan root whose base name starts with a dot or equals the
dependency-vendor directory name is pruned entirely — it contributes no
walk entries wherever it appears, and removing such a child from a
scanned directory leaves the search result unchanged; the scan root
itself is scanned even when its own name is hidden: the result over a
root depends only on its children.  (The generated test-fixture
directory `testdata` is *not* pruned by the indexer.) -/
theorem indexer_prunes_hidden_and_vendor :
    (∀ (n : Str) (sub : List FTree),
      (startsWithDot n || n == vendorName) = true →
        walkTree false (FTree.dir n sub) = []) ∧
    (∀ (rootName : Str) (pre post : List FTree) (n : Str) (sub : List FTree) (q k : Str),
      (startsWithDot n || n == vendorName) = true →
        searchSymbols (FTree.dir rootName (pre ++ FTree.dir n sub :: post)) q k =
          searchSymbols (FTree.dir rootName (pre ++ post)) q k) ∧
    (∀ (rootName : Str) (children : List FTree) (q k : Str),
      searchSymbols (FTree.dir rootName children) q k =
        (walkForest children).flatMap (fun e => e.2.flatMap (extractDecl e.1 q k))) := by
  refine ⟨walkTree_pruned, ?_, ?_⟩
  · intro rootName pre post n sub q k h
    simp only [searchSymbols, walkTree_root, walkForest_append, walkForest,
      walkTree_pruned n sub h, List.nil_append]
  · intro rootName children q k
    simp only [searchSymbols, walkTree_root]

/-- Witness for C6: removing a concrete hidden child leaves the search
result unchanged. -/
theorem indexer_prunes_hidden_and_vendor_witness :
    searchSymbols
      (FTree.dir ("root".toList)
        (FTree.dir (".git".toList) [FTree.file ("x.go".toList) (some [PDecl.funcD fiHelper])]
          :: [FTree.file ("a.go".toList) (some [PDecl.funcD fiHelper])]))
      ("Helper".toList) [] =
    searchSymbols
      (FTree.dir ("root".toList) [FTree.file ("a.go".toList) (some [PDecl.funcD fiHelper])])
      ("Helper".toList) [] :=
  indexer_prunes_hidden_and_vendor.2.1 ("root".toList) []
    [FTree.file ("a.go".toList) (some [PDecl.funcD fiHelper])]
    (".git".toList) [FTree.file ("x.go".toList) (some [PDecl.funcD fiHelper])]
    ("Helper".toList) [] (by decide)

/-- Counterexample to C7 as stated: under the "type" kind filter the
result is not restricted to the type category — a struct-field record
(kind "field") is returned, because the struct-field scan inside the
type-spec branch is not guarded by the filter. -/
theorem type_filter_leaks_field_records :
    searchSymbols treeUser ("Name".toList) kType =
      [⟨qualify ("User".toList) ("Name".toList), kField, "u.go".toList, "User".toList⟩] ∧
    kField ≠ kType := by
  decide

/-- Claim C7 (amended): the "func" filter yields only records of kind
"func" (methods included, as the concrete method instance shows); the
"var", "const" and "field" filters yield only records of exactly that
kind — in particular "field" suppresses the enclosing type's own
record, as the concrete instance shows; the "type" filter yields type,
struct and interface records but may also yield struct-field records. -/
theorem kind_filter_categories :
    (∀ (t : FTree) (q : Str) (r : SymbolLocation),
      r ∈ searchSymbols t q kFunc → r.kind = kFunc) ∧
    (∀ (t : FTree) (q : Str) (r : SymbolLocation),
      r ∈ searchSymbols t q kVar → r.kind = kVar) ∧
    (∀ (t : FTree) (q : Str) (r : SymbolLocation),
      r ∈ searchSymbols t q kConst → r.kind = kConst) ∧
    (∀ (t : FTree) (q : Str) (r : SymbolLocation),
      r ∈ searchSymbols t q kField → r.kind = kField) ∧
    (∀ (t : FTree) (q : Str) (r : SymbolLocation),
      r ∈ searchSymbols t q kType →
        r.kind = kType ∨ r.kind = kStruct ∨ r.kind = kInterface ∨ r.kind = kField) ∧
    searchSymbols treeMethod ("Delete".toList) kFunc =
      [⟨"*UserService.Delete".toList, kFunc, "m.go".toList, []⟩] ∧
    searchSymbols treeUser ("User".toList) kField =
      [⟨qualify ("User".toList) ("Name".toList), kField, "u.go".toList, "User".toList⟩] := by
  refine ⟨?_, ?_, ?_, ?_, ?_, by decide, by decide⟩
  · intro t q r h
    rcases List.mem_flatMap.mp h with ⟨e, _, he⟩
    rcases List.mem_flatMap.mp he with ⟨d, _, hd⟩
    exact kind_of_mem_extractDecl_kFunc hd
  · intro t q r h
    rcases List.mem_flatMap.mp h with ⟨e, _, he⟩
    rcases List.mem_flatMap.mp he with ⟨d, _, hd⟩
    exact kind_of_mem_extractDecl_kVar hd
  · intro t q r h
    rcases List.mem_flatMap.mp h with ⟨e, _, he⟩
    rcases List.mem_flatMap.mp he with ⟨d, _, hd⟩
    exact kind_of_mem_extractDecl_kConst hd
  · intro t q r h
    rcases List.mem_flatMap.mp h with ⟨e, _, he⟩
    rcases List.mem_flatMap.mp he with ⟨d, _, hd⟩
    exact kind_of_mem_extractDecl_kField hd
  · intro t q r h
    rcases List.mem_flatMap.mp h with ⟨e, _, he⟩
    rcases List.mem_flatMap.mp he with ⟨d, _, hd⟩
    exact kind_of_mem_extractDecl_kType hd

/-- Witness for C7: the kind of a concrete record returned under the
"field" filter. -/
theorem kind_filter_categories_witness :
    (⟨qualify ("User".toList) ("Name".toList), kField, "u.go".toList,
      "User".toList⟩ : SymbolLocation).kind = kField :=
  kind_filter_categories.2.2.2.1 treeUser ("User".toList) _ (by decide)

/-- Claim C10: the per-file span-mutator lookups (`ReadFunc` and the
replace/delete/move loops, all built on `matchFunc`) use exact name
matching, not the fuzzy project-wide matcher: a function declaration is
selected iff the query equals its bare identifier, or, for a method,
equals `Receiver.Method` with the receiver rendered with a leading star
for pointer receivers, or equals that qualified form with the leading
star omitted; case-insensitive or substring queries accepted by
`matchName` select nothing — concretely, `ReadFunc` scoped to a file
containing `ProcessOrder` rejects the query "processorder". -/
theorem matchFunc_exact :
    (∀ (f : FuncInfo) (name : Str),
      matchFunc f name = true ↔
        (name = f.name ∨
          ∃ recv, f.recv = some recv ∧
            (name = qualify recv f.name ∨
              ∃ rest, recv = '*' :: rest ∧ name = qualify rest f.name))) ∧
    matchName ("ProcessOrder".toList) ("processorder".toList) = true ∧
    ReadFunc parseProc ("processorder".toList) pfile fsProc = none ∧
    matchName ("ProcessOrder".toList) ("rocessOrd".toList) = true ∧
    matchFunc fiProc ("rocessOrd".toList) = false := by
  refine ⟨fun f name => ?_, by decide, by decide, by decide, by decide⟩
  rcases hr : f.recv with _ | recv
  · simp only [matchFunc, hr]
    constructor
    · intro h
      split_ifs at h with h1
      exact Or.inl (beq_iff_eq.mp h1).symm
    · rintro (h | ⟨recv, hrec, _⟩)
      · simp [h]
      · simp at hrec
  · simp only [matchFunc, hr, Option.some.injEq]
    split_ifs with h1 h2
    · exact iff_of_true rfl (Or.inl (beq_iff_eq.mp h1).symm)
    · exact iff_of_true rfl
        (Or.inr ⟨recv, rfl, Or.inl (beq_iff_eq.mp h2).symm⟩)
    · cases recv with
      | nil =>
        constructor
        · intro h
          cases h
        · rintro (h | ⟨recv2, hrec, h | ⟨rest, hstar, _⟩⟩)
          · exact absurd (beq_iff_eq.mpr h.symm) h1
          · cases hrec
            exact absurd (beq_iff_eq.mpr h.symm) h2
          · cases hrec
            cases hstar
      | cons c rest =>
        constructor
        · intro h
          have hand : c = '*' ∧ qualify rest f.name = name := by simpa using h
          refine Or.inr ⟨c :: rest, rfl, Or.inr ⟨rest, ?_, hand.2.symm⟩⟩
          rw [hand.1]
        · rintro (h | ⟨recv2, hrec, h | ⟨rest2, hstar, hn⟩⟩)
          · exact absurd (beq_iff_eq.mpr h.symm) h1
          · cases hrec
            exact absurd (beq_iff_eq.mpr h.symm) h2
          · cases hrec
            injection hstar with hc hrest
            subst hc
            subst hrest
            simp [hn]

/-- Witness for C10: a pointer-receiver method is selected by the
star-omitted qualified form, through the characterization. -/
theorem matchFunc_exact_witness :
    matchFunc fiMethodDelete ("UserService.Delete".toList) = true :=
  (matchFunc_exact.1 fiMethodDelete ("UserService.Delete".toList)).mpr
    (Or.inr ⟨"*UserService".toList, rfl,
      Or.inr ⟨"UserService".toList, by decide, by decide⟩⟩)
